import Mathlib

/-!
# Verification of the nengo_mpi distributed simulation core

A shallow embedding of the nengo_mpi per-step execution engine:
the MPI communication operators (`src/mpi_sim/mpi_operator.cpp`),
the operator-ordering comparator (`compare_op_ptr`), the chunk step
loop and probe sampler (modelled from the spec where `chunk.cpp` and
`probe.cpp` are not among the provided sources), the build-phase
worker loop (`start_worker`), the simulator reset stub
(`MpiSimulator::reset`), and the Python bridge (`src/mpi_sim/python.cpp`).

Simulation values (`dtype`, C++ `double`) are modelled as rationals;
all operations verified here (copies, buffering, comparisons) are
exact on doubles, so the modelling is faithful for them.
-/

namespace NengoMpi

/-- Simulation scalar values: the C++ `dtype` (`double`).  Modelled as `ℚ`;
the verified operations only copy and compare values. -/
abbrev Val := ℚ

/-- Keys identifying base signals, probes and MPI slots (C++ `key_type`,
an opaque 64-bit identifier).  Modelled as `ℕ`; only equality is used. -/
abbrev Key := ℕ

/-! ## MPI communication operators — `src/mpi_sim/mpi_operator.cpp` -/

/-- State of an `MPISend` operator: the `first_call` flag and the private
`buffer` that `content_view` is copied into before each non-blocking send
(constructor at mpi_operator.cpp lines 3-9). -/
structure SendState where
  first_call : Bool
  buffer : List Val
deriving Repr, DecidableEq

/-- State of an `MPIRecv` operator: the `first_call` flag and the private
`buffer` non-blocking receives land in (constructor at lines 11-17). -/
structure RecvState where
  first_call : Bool
  buffer : List Val
deriving Repr, DecidableEq

/-- The in-flight messages on one matched `(peer, tag)` link, in posting
order.  MPI matches messages between a fixed sender and receiver on a fixed
tag in order, so the link is a FIFO queue of payloads. -/
abbrev Channel := List (List Val)

/-- `MPISend::operator()` (mpi_operator.cpp lines 19-32): on the first call
clear the flag, otherwise `MPI_Wait` on the previous request (no effect on
local data); then `memcpy` the content view into `buffer` and post
`MPI_Isend(buffer, ...)`, which enqueues the buffer contents on the link.
`content` is the value the content view holds when the operator runs. -/
def mpiSend_step (content : List Val) (s : SendState) (ch : Channel) :
    SendState × Channel :=
  let s1 := if s.first_call then { s with first_call := false } else s
  let s2 := { s1 with buffer := content }
  (s2, ch ++ [s2.buffer])

/-- `MPIRecv::operator()` (mpi_operator.cpp lines 34-47): on the first call
clear the flag and leave the content view untouched; otherwise `MPI_Wait`
for the receive posted last step (modelled: dequeue the head of the FIFO
link into `buffer`) and `memcpy` `buffer` into the content view.  Then post
`MPI_Irecv` for the next message (modelled by the dequeue-at-wait
discipline).  Returns the new state, the remaining channel and the value
the content view holds afterwards.  An empty channel on a non-first call
would block in `MPI_Wait`; the model leaves the state unchanged there
(that case is unreachable in the matched-pair runs below). -/
def mpiRecv_step (s : RecvState) (ch : Channel) (content : List Val) :
    RecvState × Channel × List Val :=
  if s.first_call then
    ({ s with first_call := false }, ch, content)
  else
    match ch with
    | [] => (s, ch, content)
    | m :: rest => ({ s with buffer := m }, rest, m)

/-- A matched `MPISend`/`MPIRecv` pair on one link: both operator states,
the in-flight messages, and the receiver-side content view. -/
structure LinkState where
  send : SendState
  recv : RecvState
  channel : Channel
  recvContent : List Val
deriving Repr, DecidableEq

/-- The link state right after build: both operators have `first_call =
true`, no message is in flight, and the receive-side content view holds
the signal's initial value. -/
def initLink (init : List Val) : LinkState :=
  ⟨⟨true, []⟩, ⟨true, []⟩, [], init⟩

/-- One global step of the matched pair.  The receive's `step()` is
scheduled before any reader of its content view and the send's `step()`
after any writer of its content view; `sendVal` is the value the sender's
content view holds at this step when its `MPISend` runs. -/
def linkStep (sendVal : List Val) (st : LinkState) : LinkState :=
  let rc := mpiRecv_step st.recv st.channel st.recvContent
  let sc := mpiSend_step sendVal st.send rc.2.1
  ⟨sc.1, rc.1, sc.2, rc.2.2⟩

/-- Run the matched pair for `n` global steps from a fresh build, where
`sendVals s` is the sender-side content at step `s`. -/
def runLink (sendVals : ℕ → List Val) (init : List Val) : ℕ → LinkState
  | 0 => initLink init
  | n + 1 => linkStep (sendVals n) (runLink sendVals init n)

/-- Closed form for the link state after `n + 1` steps. -/
theorem runLink_succ_eq (f : ℕ → List Val) (init : List Val) (n : ℕ) :
    runLink f init (n + 1) =
      ⟨⟨false, f n⟩, ⟨false, if n = 0 then [] else f (n - 1)⟩, [f n],
        if n = 0 then init else f (n - 1)⟩ := by
  induction n with
  | zero =>
      simp [runLink, initLink, linkStep, mpiRecv_step, mpiSend_step]
  | succ k ih =>
      have h : runLink f init (k + 1 + 1) = linkStep (f (k + 1)) (runLink f init (k + 1)) := rfl
      rw [h, ih]
      simp [linkStep, mpiRecv_step, mpiSend_step]

/-! ## MPIBarrier — `src/mpi_sim/mpi_operator.cpp` lines 65-73 -/

/-- Modelled from the spec: the constant `BARRIER_PERIOD` is defined in
`mpi_operator.hpp`, which is not among the provided sources; the spec gives
"a small integer constant, e.g. 1000". -/
def BARRIER_PERIOD : ℕ := 1000

/-- `MPIBarrier::operator()` (mpi_operator.cpp lines 65-73): perform
`MPI_Barrier` iff `step != 0 && step % BARRIER_PERIOD == 0`, then increment
the internal `step` counter.  Returns whether a barrier was performed,
paired with the new counter; nothing else of the operator changes. -/
def mpiBarrier_step (step : ℕ) : Bool × ℕ :=
  (step != 0 && step % BARRIER_PERIOD == 0, step + 1)

/-- The `step` counter of a fresh `MPIBarrier` operator after `n`
invocations (the counter starts at 0 at construction; `mpi_operator.hpp`
with the member initializer is not among the provided sources, but
`MPIBarrier::to_string` prints the counter and the spec's "once every
BARRIER_PERIOD steps" fixes the fresh counter at 0). -/
def mpiBarrier_run : ℕ → ℕ
  | 0 => 0
  | n + 1 => (mpiBarrier_step (mpiBarrier_run n)).2

/-- Whether invocation `i` (0-based) of a fresh `MPIBarrier` operator
performs a collective barrier. -/
def mpiBarrier_fires (i : ℕ) : Bool :=
  (mpiBarrier_step (mpiBarrier_run i)).1

/-- The counter just advances by one per invocation. -/
theorem mpiBarrier_run_eq (n : ℕ) : mpiBarrier_run n = n := by
  induction n with
  | zero => rfl
  | succ k ih => simp [mpiBarrier_run, mpiBarrier_step, ih]

/-- Characterisation of the invocations that perform a barrier. -/
theorem mpiBarrier_fires_iff (i : ℕ) :
    mpiBarrier_fires i = true ↔ i ≠ 0 ∧ i % BARRIER_PERIOD = 0 := by
  simp [mpiBarrier_fires, mpiBarrier_step, mpiBarrier_run_eq]

/-! ## Operator ordering — `compare_op_ptr` (src/unnamed/part_000 lines 345-347)
and `MpiSimulatorChunk::finalize_build` -/

/-- An operator as seen by the scheduler: the float `index` assigned at
build (C++ `float`; comparisons on floats are exact, modelled in `ℚ`) and
the position `seq` at which the operator was added to the chunk. -/
structure OpRec where
  index : ℚ
  seq : ℕ
deriving Repr, DecidableEq

/-- `compare_op_ptr` (src/unnamed/part_000 lines 345-347):
`left->get_index() < right->get_index()`. -/
def compare_op_ptr (left right : OpRec) : Bool :=
  left.index < right.index

/-- Stable insertion of `x` into a list: `x` goes after every element that
does not compare strictly greater than it, exactly the placement a stable
sort by `compare_op_ptr` gives an element relative to earlier-added ones. -/
def stableInsert (x : OpRec) : List OpRec → List OpRec
  | [] => [x]
  | y :: ys => if compare_op_ptr x y then x :: y :: ys else y :: stableInsert x ys

/-- Modelled from the spec: step 1 of `MpiSimulatorChunk::finalize_build`
("Sort operators by `index` ascending (stable)"; `chunk.cpp` is not among
the provided sources — the chunk header includes `<algorithm> // sort_stable`
and declares `compare_op_ptr` as the comparator).  A stable sort of the
operator list by `compare_op_ptr`, realised as left-to-right stable
insertion; its output is the operator sequence the step loop invokes. -/
def finalize_op_order (ops : List OpRec) : List OpRec :=
  ops.foldl (fun acc x => stableInsert x acc) []

theorem mem_stableInsert (z x : OpRec) (l : List OpRec) :
    z ∈ stableInsert x l ↔ z = x ∨ z ∈ l := by
  induction l with
  | nil => simp [stableInsert]
  | cons y ys ih =>
      by_cases h : compare_op_ptr x y
      · simp [stableInsert, h]
      · simp [stableInsert, h, ih]
        tauto

/-- `stableInsert` preserves sortedness by index. -/
theorem pairwise_stableInsert (x : OpRec) (l : List OpRec)
    (h : l.Pairwise (fun a b => a.index ≤ b.index)) :
    (stableInsert x l).Pairwise (fun a b => a.index ≤ b.index) := by
  induction l with
  | nil => simp [stableInsert]
  | cons y ys ih =>
      rw [List.pairwise_cons] at h
      by_cases hc : compare_op_ptr x y
      · have hxy : x.index < y.index := by
          simpa [compare_op_ptr] using hc
        rw [stableInsert, if_pos hc, List.pairwise_cons]
        constructor
        · intro z hz
          rcases List.mem_cons.mp hz with hz | hz
          · exact le_of_lt (hz ▸ hxy)
          · exact le_of_lt (lt_of_lt_of_le hxy (h.1 z hz))
        · exact List.pairwise_cons.mpr h
      · have hyx : y.index ≤ x.index := by
          simpa [compare_op_ptr, not_lt] using hc
        rw [stableInsert, if_neg hc, List.pairwise_cons]
        constructor
        · intro z hz
          rcases (mem_stableInsert z x ys).mp hz with hz | hz
          · exact hz ▸ hyx
          · exact h.1 z hz
        · exact ih h.2

/-- Stable insertion into a sorted list, seen through the elements of a
fixed index value `q`: the inserted element lands after all existing
elements of index `q`. -/
theorem filter_stableInsert (x : OpRec) (q : ℚ) (l : List OpRec)
    (h : l.Pairwise (fun a b => a.index ≤ b.index)) :
    (stableInsert x l).filter (fun op => op.index == q) =
      l.filter (fun op => op.index == q) ++
        (if x.index == q then [x] else []) := by
  induction l with
  | nil =>
      by_cases hq : x.index = q <;> simp [stableInsert, List.filter_cons, hq]
  | cons y ys ih =>
      rw [List.pairwise_cons] at h
      by_cases hc : compare_op_ptr x y
      · have hxy : x.index < y.index := by
          simpa [compare_op_ptr] using hc
        rw [stableInsert, if_pos hc]
        by_cases hq : x.index = q
        · have hfilter : (y :: ys).filter (fun op => op.index == q) = [] := by
            apply List.filter_eq_nil_iff.mpr
            intro z hz
            rcases List.mem_cons.mp hz with hz | hz
            · simp only [hz, beq_iff_eq]
              exact fun hzq => absurd (hzq ▸ hxy) (by simp [hq])
            · simp only [beq_iff_eq]
              exact fun hzq =>
                absurd (hzq ▸ lt_of_lt_of_le hxy (h.1 z hz)) (by simp [hq])
          simp [List.filter_cons, hq, hfilter]
        · simp [List.filter_cons, hq]
      · rw [stableInsert, if_neg hc]
        by_cases hyq : y.index = q <;>
          simp [List.filter_cons, hyq, ih h.2]

/-- The accumulating fold keeps the accumulator sorted. -/
theorem pairwise_finalize_aux (l : List OpRec) (acc : List OpRec)
    (h : acc.Pairwise (fun a b => a.index ≤ b.index)) :
    (l.foldl (fun acc x => stableInsert x acc) acc).Pairwise
      (fun a b => a.index ≤ b.index) := by
  induction l generalizing acc with
  | nil => simpa
  | cons x xs ih => exact ih _ (pairwise_stableInsert x acc h)

/-- The accumulating fold, seen through a fixed index value: elements of
that index accumulate in insertion order. -/
theorem filter_finalize_aux (l : List OpRec) (acc : List OpRec) (q : ℚ)
    (h : acc.Pairwise (fun a b => a.index ≤ b.index)) :
    (l.foldl (fun acc x => stableInsert x acc) acc).filter
        (fun op => op.index == q) =
      acc.filter (fun op => op.index == q) ++
        l.filter (fun op => op.index == q) := by
  induction l generalizing acc with
  | nil => simp
  | cons x xs ih =>
      rw [List.foldl_cons, ih _ (pairwise_stableInsert x acc h),
        filter_stableInsert x q acc h]
      by_cases hq : x.index = q <;> simp [List.filter_cons, hq]

/-! ## Chunk signal store, operators and probes

`chunk.cpp`, `operator.cpp` and `probe.cpp` are not among the provided
sources; the signal store, the concrete operators and the step loop are
modelled from the spec (sections 4.1-4.3, 4.5). -/

/-- A stored tensor: rank-1 or rank-2 floating array, as a list of rows. -/
abbrev Tensor := List (List Val)

/-- The chunk's signal store: base signals by key (C++
`map<key_type, Signal> signal_map`). -/
abbrev SignalStore := List (Key × Tensor)

/-- Look up a base signal by key (empty if absent; operators only
reference keys added at build per the chunk invariant). -/
def getSignal (st : SignalStore) (k : Key) : Tensor :=
  (((st.find? (fun p => p.1 == k)).map Prod.snd)).getD []

/-- Overwrite the base signal stored at `k`. -/
def setSignal (st : SignalStore) (k : Key) (v : Tensor) : SignalStore :=
  st.map (fun p => if p.1 == k then (p.1, v) else p)

/-- The rank-1 content of a tensor. -/
def vecOf (t : Tensor) : List Val :=
  t.flatten

/-- Dot product of two rows. -/
def dotL (r x : List Val) : Val :=
  (List.zipWith (fun a b => a * b) r x).sum

/-- Matrix-vector product with standard BLAS semantics. -/
def matVec (A : Tensor) (x : List Val) : List Val :=
  A.map (fun row => dotL row x)

/-- Modelled from the spec: the concrete operator variants used here
(spec section 4.2; `operator.cpp` is not among the provided sources) —
`Reset(dst, value)` sets every element of `dst` to `value`; `Copy(dst,
src)` assigns element-wise; `DotInc(A, X, Y)` performs `Y += A · X`. -/
inductive ChunkOp
  | reset (dst : Key) (value : Val)
  | copy (dst src : Key)
  | dotInc (A X Y : Key)
deriving Repr, DecidableEq

/-- Modelled from the spec: one operator application to the signal store
(spec section 4.2). -/
def applyOp (st : SignalStore) : ChunkOp → SignalStore
  | .reset dst v => setSignal st dst ((getSignal st dst).map (fun row => row.map (fun _ => v)))
  | .copy dst src => setSignal st dst (getSignal st src)
  | .dotInc A X Y =>
      setSignal st Y
        [List.zipWith (fun a b => a + b) (vecOf (getSignal st Y))
          (matVec (getSignal st A) (vecOf (getSignal st X)))]

/-- A probe: target signal view (by key), sampling period, and the
in-memory buffer of collected samples (spec section 3, `Probe`). -/
structure ProbeState where
  target : Key
  period : ℕ
  buffer : List Tensor
deriving Repr, DecidableEq

/-- Padding element for positional probe lookups. -/
def defaultProbe : ProbeState :=
  ⟨0, 1, []⟩

/-- Modelled from the spec: `Probe::sample(step)` (spec section 4.5;
`probe.cpp` is not among the provided sources): if `step mod period == 0`,
append a fresh copy of the current target view to the buffer. -/
def probe_sample (st : SignalStore) (step : ℕ) (p : ProbeState) : ProbeState :=
  if step % p.period == 0 then
    { p with buffer := p.buffer ++ [getSignal st p.target] }
  else
    p

/-- One process's slice of the network (C++ `MpiSimulatorChunk`,
src/unnamed/part_000 lines 178-331): label, timestep, simulation time,
signal store, operator list (post-finalize order), probes and the log
file name. -/
structure Chunk where
  label : String
  dt : Val
  time : Val
  signals : SignalStore
  ops : List ChunkOp
  probes : List ProbeState
  log_filename : String
deriving Repr, DecidableEq

/-- Modelled from the spec: one iteration of the step phase (spec section
4.3; `chunk.cpp` is not among the provided sources): invoke each operator
in order, probes sample at the current step counter `s`, advance `time` by
`dt`. -/
def chunk_step (c : Chunk) (s : ℕ) : Chunk :=
  let sigs := c.ops.foldl applyOp c.signals
  { c with
      signals := sigs
      probes := c.probes.map (probe_sample sigs s)
      time := c.time + c.dt }

/-- Modelled from the spec: `MpiSimulatorChunk::run_n_steps(steps,
progress)` (spec section 4.3): for `s = 0 .. k-1` run one step; the
`progress` flag only drives the progress-bar display. -/
def run_n_steps (c : Chunk) (k : ℕ) (progress : Bool) : Chunk :=
  (List.range k).foldl chunk_step c

/-- Number of sampling steps among steps `0 .. n-1` for period `p`. -/
def countSamples (p : ℕ) : ℕ → ℕ
  | 0 => 0
  | n + 1 => countSamples p n + (if n % p = 0 then 1 else 0)

/-- The sampling steps among `n` steps number exactly `⌈n/p⌉`. -/
theorem countSamples_eq_ceil (p : ℕ) (hp : 1 ≤ p) (n : ℕ) :
    countSamples p n = (n + p - 1) / p := by
  induction n with
  | zero => exact (Nat.div_eq_of_lt (by omega)).symm
  | succ k ih =>
      rw [countSamples, ih]
      rcases Nat.eq_zero_or_pos k with hk | hk
      · subst hk
        have h0 : (0 + p - 1) / p = 0 := Nat.div_eq_of_lt (by omega)
        have h1 : 0 + 1 + p - 1 = p := by omega
        rw [h0, h1, Nat.div_self (by omega)]
        simp
      · have h1 : k + 1 + p - 1 = k - 1 + p + 1 := by omega
        have h2 : k + p - 1 = k - 1 + p := by omega
        rw [h1, h2, Nat.succ_div]
        congr 1
        have h6 : k - 1 + p + 1 = k + p := by omega
        rw [h6]
        have h7 : p ∣ k + p ↔ p ∣ k := Nat.dvd_add_self_right
        have h8 : p ∣ k ↔ k % p = 0 := Nat.dvd_iff_mod_eq_zero
        by_cases hdvd : k % p = 0
        · rw [if_pos hdvd, if_pos (h7.mpr (h8.mpr hdvd))]
        · rw [if_neg hdvd, if_neg (fun hc => hdvd (h8.mp (h7.mp hc)))]

/-- One run step unfolds to a `chunk_step` at the new step counter. -/
theorem run_n_steps_succ (c : Chunk) (k : ℕ) (progress : Bool) :
    run_n_steps c (k + 1) progress = chunk_step (run_n_steps c k progress) k := by
  simp [run_n_steps, List.range_succ]

/-- Structure of the probe list after one chunk step, positionally. -/
theorem chunk_step_probe_getD (c : Chunk) (s : ℕ) (i : ℕ) (hi : i < c.probes.length) :
    (chunk_step c s).probes.getD i defaultProbe =
      probe_sample ((chunk_step c s).signals) s (c.probes.getD i defaultProbe) := by
  simp only [chunk_step]
  rw [List.getD_eq_getElem?_getD, List.getElem?_map,
    List.getElem?_eq_getElem hi]
  simp [List.getD_eq_getElem?_getD, List.getElem?_eq_getElem hi]

/-- The run preserves the number of probes. -/
theorem run_probes_length (c : Chunk) (k : ℕ) (progress : Bool) :
    (run_n_steps c k progress).probes.length = c.probes.length := by
  induction k with
  | zero => rfl
  | succ n ih => rw [run_n_steps_succ]; simpa [chunk_step] using ih

/-- Along a run, probe `i` keeps its period and target, and its buffer
grows by exactly the sampling steps seen so far. -/
theorem run_probe_invariant (c : Chunk) (i : ℕ) (hi : i < c.probes.length)
    (progress : Bool) (n : ℕ) :
    ((run_n_steps c n progress).probes.getD i defaultProbe).period =
        (c.probes.getD i defaultProbe).period ∧
      ((run_n_steps c n progress).probes.getD i defaultProbe).target =
        (c.probes.getD i defaultProbe).target ∧
      ((run_n_steps c n progress).probes.getD i defaultProbe).buffer.length =
        (c.probes.getD i defaultProbe).buffer.length +
          countSamples (c.probes.getD i defaultProbe).period n := by
  induction n with
  | zero => simp [run_n_steps, countSamples]
  | succ k ih =>
      rw [run_n_steps_succ]
      have hlen : i < (run_n_steps c k progress).probes.length := by
        rw [run_probes_length]; exact hi
      rw [chunk_step_probe_getD _ _ _ hlen]
      rcases ih with ⟨hper, htar, hbuf⟩
      rw [probe_sample, hper]
      by_cases hs : k % (c.probes.getD i defaultProbe).period = 0
      · rw [if_pos (by simpa using hs)]
        refine ⟨rfl, htar, ?_⟩
        rw [countSamples, if_pos hs, List.length_append, hbuf]
        simp [Nat.add_assoc]
      · rw [if_neg (by simpa using hs)]
        refine ⟨hper, htar, ?_⟩
        rw [countSamples, if_neg hs, hbuf]
        simp

/-- Two runs from chunks that agree on signals, operators and probes
stay in agreement on those fields, whatever the progress flags. -/
theorem run_agrees (c1 c2 : Chunk) (k : ℕ) (p1 p2 : Bool)
    (hs : c1.signals = c2.signals) (ho : c1.ops = c2.ops)
    (hp : c1.probes = c2.probes) :
    (run_n_steps c1 k p1).signals = (run_n_steps c2 k p2).signals ∧
      (run_n_steps c1 k p1).ops = (run_n_steps c2 k p2).ops ∧
      (run_n_steps c1 k p1).probes = (run_n_steps c2 k p2).probes := by
  induction k with
  | zero => exact ⟨hs, ho, hp⟩
  | succ n ih =>
      rcases ih with ⟨h1, h2, h3⟩
      rw [run_n_steps_succ, run_n_steps_succ]
      refine ⟨?_, ?_, ?_⟩ <;> simp [chunk_step, h1, h2, h3]

/-! ## Distributed simulator reset — `MpiSimulator::reset`
(src/unnamed/part_001 lines 63-68) -/

/-- The simulator state `MpiSimulator::reset` is responsible for: the
gathered probe data, the master chunk's signal store, the initial-value
snapshots retained for reset, and the simulation time. -/
structure MpiSimulatorState where
  probe_data : List (Key × List Tensor)
  chunk_signals : SignalStore
  chunk_signal_init : SignalStore
  chunk_time : Val
deriving Repr, DecidableEq

/-- `MpiSimulator::reset` (src/unnamed/part_001 lines 63-68): the body is
an empty `// TODO` stub (its comments list clearing probe data, resetting
the master chunk and signalling remote chunks as unimplemented intentions),
so the call changes nothing. -/
def MpiSimulator_reset (st : MpiSimulatorState) : MpiSimulatorState :=
  st

/-- A simulator state part-way through a run: signal 1 holds 5 while its
initial snapshot is 9, probe 2 has one collected sample, time is 3. -/
def resetFailState : MpiSimulatorState :=
  { probe_data := [(2, [[[1]]])]
    chunk_signals := [(1, [[5]])]
    chunk_signal_init := [(1, [[9]])]
    chunk_time := 3 }

/-! ## Build-phase worker loop — `start_worker`
(src/unnamed/part_001 lines 140-262) -/

/-- Modelled from the spec: the build-record flag values (`add_signal=1`,
`add_op=2`, `add_probe=3`, `stop=4`); the header defining the C++ flag
constants is not among the provided sources. -/
def add_signal_flag : ℤ := 1

/-- Modelled from the spec: see `add_signal_flag`. -/
def add_op_flag : ℤ := 2

/-- Modelled from the spec: see `add_signal_flag`. -/
def add_probe_flag : ℤ := 3

/-- Modelled from the spec: see `add_signal_flag`. -/
def stop_flag : ℤ := 4

/-- One framed build-phase message from rank 0 to a worker: the integer
flag followed by the payload fields the handler for that flag reads
(key, label and tensor for a signal; an operator string for an op;
probe key, signal string and period for a probe). -/
structure BuildRecord where
  flag : ℤ
  key : Key
  label : String
  data : Tensor
  op_string : String
  signal_string : String
  period : ℤ
deriving Repr, DecidableEq

/-- What a worker chunk accumulates during the build loop, via
`add_base_signal`, `add_op` and `add_probe`. -/
structure BuildChunk where
  signals : List (Key × String × Tensor)
  ops : List String
  probes : List (Key × String × ℤ)
deriving Repr, DecidableEq

/-- The effect of one valid (non-stop) build record on the worker chunk:
`chunk.add_base_signal`, `chunk.add_op` or `chunk.add_probe`
(src/unnamed/part_001 lines 171-202). -/
def build_apply (chunk : BuildChunk) (r : BuildRecord) : BuildChunk :=
  if r.flag = add_signal_flag then
    { chunk with signals := chunk.signals ++ [(r.key, r.label, r.data)] }
  else if r.flag = add_op_flag then
    { chunk with ops := chunk.ops ++ [r.op_string] }
  else if r.flag = add_probe_flag then
    { chunk with probes := chunk.probes ++ [(r.key, r.signal_string, r.period)] }
  else
    chunk

/-- How the worker's build loop ends: `done` when a stop record arrived
(with the records the loop never consumed), `invalid` when a flag outside
the four known ones raised `runtime_error("Worker received invalid flag
from master.")`, `blocked` when the stream ran dry (a real worker would
sit in `recv_int` forever). -/
inductive WorkerOutcome
  | done (chunk : BuildChunk) (rest : List BuildRecord)
  | invalid (chunk : BuildChunk) (flag : ℤ)
  | blocked (chunk : BuildChunk)
deriving Repr, DecidableEq

/-- The `while(1)` build loop of `start_worker` (src/unnamed/part_001
lines 168-211): receive a flag; on `add_signal_flag`, `add_op_flag` or
`add_probe_flag` handle the record and continue; on `stop_flag` break;
on anything else throw. -/
def worker_build_loop (chunk : BuildChunk) :
    List BuildRecord → WorkerOutcome
  | [] => .blocked chunk
  | r :: rest =>
      if r.flag = add_signal_flag then
        worker_build_loop (build_apply chunk r) rest
      else if r.flag = add_op_flag then
        worker_build_loop (build_apply chunk r) rest
      else if r.flag = add_probe_flag then
        worker_build_loop (build_apply chunk r) rest
      else if r.flag = stop_flag then
        .done chunk rest
      else
        .invalid chunk r.flag

/-- Valid records ahead of the rest of the stream are consumed one by one
into the chunk. -/
theorem worker_build_loop_append (pre : List BuildRecord)
    (hpre : ∀ m ∈ pre, m.flag = add_signal_flag ∨ m.flag = add_op_flag ∨
      m.flag = add_probe_flag) :
    ∀ (chunk : BuildChunk) (tail : List BuildRecord),
      worker_build_loop chunk (pre ++ tail) =
        worker_build_loop (pre.foldl build_apply chunk) tail := by
  induction pre with
  | nil => intro chunk tail; rfl
  | cons m ms ih =>
      intro chunk tail
      have hm := hpre m (List.mem_cons_self m ms)
      have hms : ∀ x ∈ ms, x.flag = add_signal_flag ∨ x.flag = add_op_flag ∨
          x.flag = add_probe_flag :=
        fun x hx => hpre x (List.mem_cons_of_mem m hx)
      have hstep : worker_build_loop chunk ((m :: ms) ++ tail) =
          worker_build_loop (build_apply chunk m) (ms ++ tail) := by
        rcases hm with h | h | h <;>
          simp [worker_build_loop, h, add_signal_flag, add_op_flag, add_probe_flag]
      rw [hstep, ih hms]
      rfl

/-! ## Python bridge — `src/mpi_sim/python.cpp` -/

/-- A Python object returned by a host callback or handed to the bridge:
either extractable as a single float, or a sequence of floats (an ndarray;
`bpy::extract<float>` on the whole sequence raises). -/
inductive PyObj
  | float (q : Val)
  | arr (l : List Val)
deriving Repr, DecidableEq

/-- `ndarray_to_vector` (python.cpp lines 12-31): element `i` of the result
is `bpy::extract<float>(a[i])` — every element passes through the
single-precision extraction `ext` before being stored into the
double-precision `Vector`. -/
def ndarray_to_vector (ext : Val → Val) (a : List Val) : List Val :=
  a.map ext

/-- `ndarray_to_matrix` (python.cpp lines 33-71): entry `(i, j)` of the
result is `bpy::extract<float>(a[i][j])`. -/
def ndarray_to_matrix (ext : Val → Val) (a : Tensor) : Tensor :=
  a.map (fun row => row.map ext)

/-- The fallback loop of `PyFunc::operator()` (python.cpp lines 311-315):
`for i in 0 .. output.size()-1: output[i] = extract<float>(py_output[i])`.
First argument: the elements of the returned sequence not yet consumed;
second: the output positions not yet written.  Running out of returned
elements raises a Python `IndexError` that escapes as an uncaught
`error_already_set`; elements of the return beyond the output's size are
never read. -/
def pyFunc_loop (ext : Val → Val) : List Val → List Val → Except String (List Val)
  | _, [] => .ok []
  | [], _ :: _ => .error "IndexError escaping PyFunc as error_already_set"
  | v :: vs, _ :: os => (pyFunc_loop ext vs os).map (fun ws => ext v :: ws)

/-- The write-back of `PyFunc::operator()` (python.cpp lines 309-315):
`try { output[0] = extract<float>(py_output); } catch { for i: output[i] =
extract<float>(py_output[i]); }` — a scalar-extractable return lands in
element 0 only; otherwise the fallback loop runs over the output's size. -/
def pyFunc_writeback (ext : Val → Val) (py_output : PyObj)
    (output : List Val) : Except String (List Val) :=
  match py_output with
  | .float q => .ok (output.set 0 (ext q))
  | .arr l => pyFunc_loop ext l output

/-- When the returned sequence has at least as many elements as the output
view, the loop succeeds and silently truncates to the output's length. -/
theorem pyFunc_loop_ok (ext : Val → Val) (l out : List Val)
    (h : out.length ≤ l.length) :
    pyFunc_loop ext l out = .ok ((l.take out.length).map ext) := by
  induction out generalizing l with
  | nil => simp [pyFunc_loop]
  | cons o os ih =>
      match l with
      | [] => simp at h
      | v :: vs =>
          rw [pyFunc_loop, ih vs (by simpa using h)]
          simp [Except.map, List.take_succ_cons]

/-- When the returned sequence is shorter than the output view, the loop
raises. -/
theorem pyFunc_loop_err (ext : Val → Val) (l out : List Val)
    (h : l.length < out.length) :
    ∃ e, pyFunc_loop ext l out = .error e := by
  induction out generalizing l with
  | nil => simp at h
  | cons o os ih =>
      match l with
      | [] => exact ⟨_, rfl⟩
      | v :: vs =>
          obtain ⟨e, he⟩ := ih vs (by simpa using h)
          exact ⟨e, by rw [pyFunc_loop, he]; rfl⟩

/-- Positional access through a `map`, below the length. -/
theorem getD_map_lt {α β : Type} (f : α → β) (l : List α) (i : ℕ) (d : α)
    (d2 : β) (hi : i < l.length) :
    (l.map f).getD i d2 = f (l.getD i d) := by
  rw [List.getD_eq_getElem?_getD, List.getElem?_map,
    List.getElem?_eq_getElem hi, List.getD_eq_getElem?_getD,
    List.getElem?_eq_getElem hi]
  rfl

/-! ## Concrete inputs for the witnesses -/

/-- Sender-side contents per step: step `n` sends `[n]`. -/
def linkSendW : ℕ → List Val :=
  fun n => [(n : ℚ)]

/-- A second send schedule agreeing with `linkSendW` at step 0 only. -/
def linkSendW2 : ℕ → List Val :=
  fun n => if n = 0 then [0] else [42]

/-- Initial value of the receive-side content view. -/
def linkInitW : List Val :=
  [7]

/-- A fresh MPIRecv state. -/
def recvStW : RecvState :=
  ⟨true, []⟩

/-- One in-flight message. -/
def chW : Channel :=
  [[3]]

/-- A receive-side content view value. -/
def contentW : List Val :=
  [9]

/-- A one-signal, one-probe chunk: signal 1 starts at `[[0]]`, a `Reset`
writes 3.5 into it each step, probe 0 samples signal 1 every step. -/
def chunkW1 : Chunk :=
  { label := "chunk A"
    dt := 1 / 1000
    time := 0
    signals := [(1, [[0]])]
    ops := [.reset 1 (7 / 2)]
    probes := [⟨1, 1, []⟩]
    log_filename := "a.h5" }

/-- The same built network under a different label and log file. -/
def chunkW2 : Chunk :=
  { chunkW1 with label := "chunk B", log_filename := "b.h5" }

/-- The identity extraction (an exact float value crossing the boundary). -/
def extW : Val → Val :=
  fun x => x

/-- An `add_signal` build record. -/
def recSigW : BuildRecord :=
  ⟨1, 10, "inp", [[1, 2]], "", "", 0⟩

/-- An `add_op` build record. -/
def recOpW : BuildRecord :=
  ⟨2, 0, "", [], "Reset;0;3.5", "", 0⟩

/-- An `add_probe` build record. -/
def recProbeW : BuildRecord :=
  ⟨3, 20, "", [], "", "sig:10", 1⟩

/-- A `stop` build record. -/
def recStopW : BuildRecord :=
  ⟨4, 0, "", [], "", "", 0⟩

/-- A record with flag 9, outside the four known flags. -/
def recBadW : BuildRecord :=
  ⟨9, 0, "", [], "", "", 0⟩

/-- An empty worker chunk at the start of the build loop. -/
def chunkBW : BuildChunk :=
  ⟨[], [], []⟩

/-- A valid prefix of build records: one signal, one op, one probe. -/
def preW : List BuildRecord :=
  [recSigW, recOpW, recProbeW]

/-! ## The claims -/

/-- C1: For a matched MPISend/MPIRecv pair executed once per step (the
receive's step scheduled before any reader of its content view, the send's
step after any writer), the value the receive's content view presents to
step `s`'s downstream operators (`s ≥ 1`) equals the value the sender's
content view held at step `s - 1`; hence a value written to the send view
at step `s` is readable from the receive view at step `s + 1`, and never
in the same step — what step `s` presents is independent of everything
sent at step `s` or later. -/
theorem mpi_link_one_step_latency (f g : ℕ → List Val) (init : List Val)
    (s : ℕ) (hs : 1 ≤ s) (hfg : ∀ j, j < s → f j = g j) :
    (runLink f init (s + 1)).recvContent = f (s - 1) ∧
      (runLink f init (s + 1 + 1)).recvContent = f s ∧
      (runLink f init (s + 1)).recvContent =
        (runLink g init (s + 1)).recvContent := by
  have hs0 : s ≠ 0 := by omega
  refine ⟨?_, ?_, ?_⟩
  · rw [runLink_succ_eq]
    simp [hs0]
  · rw [runLink_succ_eq]
    simp
  · rw [runLink_succ_eq, runLink_succ_eq]
    simp [hs0, hfg (s - 1) (by omega)]

/-- C1 witness at `s = 1`: the receive view presents `[7]` (the initial
value) during step 0 and the step-0 send `[0]` during step 1; two send
schedules agreeing up to step 0 agree on what step 1 presents. -/
theorem mpi_link_one_step_latency_witness :
    (1 ≤ 1 ∧ ∀ j, j < 1 → linkSendW j = linkSendW2 j) ∧
      ((runLink linkSendW linkInitW 2).recvContent = linkSendW 0 ∧
        (runLink linkSendW linkInitW 3).recvContent = linkSendW 1 ∧
        (runLink linkSendW linkInitW 2).recvContent =
          (runLink linkSendW2 linkInitW 2).recvContent) :=
  ⟨⟨le_refl 1, fun j hj => by interval_cases j; rfl⟩,
    mpi_link_one_step_latency linkSendW linkSendW2 linkInitW 1 (le_refl 1)
      (fun j hj => by interval_cases j; rfl)⟩

/-- C2: the claim fails on the code: `MpiSimulator::reset`
(src/unnamed/part_001 lines 63-68) is an empty TODO stub, so after reset
nothing is restored — at a state where signal 1 holds 5 while its initial
snapshot is 9, a probe buffer is nonempty and time is 3, reset leaves the
signal away from its snapshot, the probe data nonempty and time nonzero. -/
theorem reset_is_noop_todo :
    (∀ st : MpiSimulatorState, MpiSimulator_reset st = st) ∧
      (MpiSimulator_reset resetFailState).chunk_signals ≠
        resetFailState.chunk_signal_init ∧
      (MpiSimulator_reset resetFailState).chunk_time ≠ 0 ∧
      (MpiSimulator_reset resetFailState).probe_data ≠ [] :=
  ⟨fun _ => rfl, by decide, by decide, by decide⟩

/-- C3: after finalize, the operator sequence invoked by the step loop is
sorted in ascending order of the float index assigned at build, and
operators of equal index keep their insertion order (the sort is stable:
restricted to any one index value, the output equals the input). -/
theorem finalize_build_sorted_stable (ops : List OpRec) :
    (finalize_op_order ops).Pairwise (fun a b => a.index ≤ b.index) ∧
      ∀ q : ℚ, (finalize_op_order ops).filter (fun op => op.index == q) =
        ops.filter (fun op => op.index == q) := by
  refine ⟨pairwise_finalize_aux ops [] (by simp), ?_⟩
  intro q
  have h := filter_finalize_aux ops [] q (by simp)
  simpa [finalize_op_order] using h

/-- C4: determinism — the probe outputs of a run are a function of the
built network (signal store, operator list, probes) and the step count
alone: two runs over chunks agreeing on those fields, under any progress
flags, any labels and any log file names, produce identical probe buffers
and identical final signal stores. -/
theorem run_deterministic (c1 c2 : Chunk) (k : ℕ) (p1 p2 : Bool)
    (hs : c1.signals = c2.signals) (ho : c1.ops = c2.ops)
    (hp : c1.probes = c2.probes) :
    (run_n_steps c1 k p1).probes.map ProbeState.buffer =
        (run_n_steps c2 k p2).probes.map ProbeState.buffer ∧
      (run_n_steps c1 k p1).signals = (run_n_steps c2 k p2).signals := by
  obtain ⟨h1, h2, h3⟩ := run_agrees c1 c2 k p1 p2 hs ho hp
  exact ⟨by rw [h3], h1⟩

/-- C4 witness: the same one-signal one-probe network, run twice for 2
steps under different labels, log files and progress flags, yields
identical probe buffers and signals. -/
theorem run_deterministic_witness :
    (chunkW1.signals = chunkW2.signals ∧ chunkW1.ops = chunkW2.ops ∧
        chunkW1.probes = chunkW2.probes) ∧
      ((run_n_steps chunkW1 2 true).probes.map ProbeState.buffer =
          (run_n_steps chunkW2 2 false).probes.map ProbeState.buffer ∧
        (run_n_steps chunkW1 2 true).signals =
          (run_n_steps chunkW2 2 false).signals) :=
  ⟨⟨rfl, rfl, rfl⟩, run_deterministic chunkW1 chunkW2 2 true false rfl rfl rfl⟩

/-- C5: a fresh MPIBarrier performs a collective barrier exactly on the
invocations whose internal counter is a nonzero multiple of
`BARRIER_PERIOD` — consecutive barriers exactly `BARRIER_PERIOD`
invocations apart, none in between — and every invocation advances the
counter by exactly one (a barrier-free invocation changes nothing else). -/
theorem mpiBarrier_period_law (i : ℕ) :
    (mpiBarrier_fires i = true ↔ i ≠ 0 ∧ i % BARRIER_PERIOD = 0) ∧
      mpiBarrier_run i = i ∧
      (mpiBarrier_step i).2 = i + 1 ∧
      (mpiBarrier_fires i = true →
        mpiBarrier_fires (i + BARRIER_PERIOD) = true ∧
          ∀ j, i < j → j < i + BARRIER_PERIOD → mpiBarrier_fires j = false) := by
  refine ⟨mpiBarrier_fires_iff i, mpiBarrier_run_eq i, rfl, ?_⟩
  intro hf
  obtain ⟨hi0, himod⟩ := (mpiBarrier_fires_iff i).mp hf
  constructor
  · apply (mpiBarrier_fires_iff _).mpr
    refine ⟨?_, ?_⟩
    · have : 0 < BARRIER_PERIOD := by simp [BARRIER_PERIOD]
      omega
    · rw [Nat.add_mod_right]
      exact himod
  · intro j hij hjlt
    have hne : ¬(j ≠ 0 ∧ j % BARRIER_PERIOD = 0) := by
      simp only [BARRIER_PERIOD] at himod hjlt hij ⊢
      omega
    cases hfj : mpiBarrier_fires j with
    | false => rfl
    | true => exact absurd ((mpiBarrier_fires_iff j).mp hfj) hne

/-- C5 witness: the barrier fires at invocation `BARRIER_PERIOD`, fires
again exactly `BARRIER_PERIOD` invocations later, and not at the
invocation in between. -/
theorem mpiBarrier_period_law_witness :
    mpiBarrier_fires BARRIER_PERIOD = true ∧
      mpiBarrier_fires (BARRIER_PERIOD + BARRIER_PERIOD) = true ∧
      mpiBarrier_fires (BARRIER_PERIOD + 1) = false :=
  have h := mpiBarrier_period_law BARRIER_PERIOD
  have hf : mpiBarrier_fires BARRIER_PERIOD = true := h.1.mpr (by decide)
  ⟨hf, (h.2.2.2 hf).1,
    (h.2.2.2 hf).2 (BARRIER_PERIOD + 1) (by decide) (by decide)⟩

/-- C6 counterexample: shape incompatibility between a host callback's
return and the output view is not fatal — a 3-element return into a
2-element output view is accepted and silently truncated to `[1, 2]`,
and a scalar return into a 2-element view is accepted writing element 0
only; no error is raised in either case. -/
theorem pyFunc_shape_mismatch_accepted :
    pyFunc_writeback extW (.arr [1, 2, 3]) [0, 0] = .ok [1, 2] ∧
      pyFunc_writeback extW (.float 5) [0, 0] = .ok [5, 0] := by
  constructor <;> rfl

/-- C6 amended: the host-callback write-back checks no shapes — a return
extractable as a single float is written into element 0 with the rest of
the output view unchanged; an iterable return with at least as many
elements as the output view is accepted with the extra elements silently
discarded; only an iterable return with fewer elements than the output
view fails, with an uncaught Python error escaping the operator (there is
no explicit RuntimeError raise). -/
theorem pyFunc_writeback_shape_behavior (ext : Val → Val) (q : Val)
    (l out : List Val) :
    pyFunc_writeback ext (.float q) out = .ok (out.set 0 (ext q)) ∧
      (out.length ≤ l.length →
        pyFunc_writeback ext (.arr l) out = .ok ((l.take out.length).map ext)) ∧
      (l.length < out.length →
        ∃ e, pyFunc_writeback ext (.arr l) out = .error e) :=
  ⟨rfl, fun h => pyFunc_loop_ok ext l out h, fun h => pyFunc_loop_err ext l out h⟩

/-- C6 amended witness: a 3-element return into a 2-element view is
truncated to its first 2 elements. -/
theorem pyFunc_writeback_shape_behavior_witness :
    (([0, 0] : List Val).length ≤ ([1, 2, 3] : List Val).length ∧
        pyFunc_writeback extW (.arr [1, 2, 3]) [0, 0] =
          .ok ((([1, 2, 3] : List Val).take ([0, 0] : List Val).length).map extW)) :=
  ⟨by decide,
    (pyFunc_writeback_shape_behavior extW 5 [1, 2, 3] [0, 0]).2.1 (by decide)⟩

/-- C7: the first invocation of MPIRecv's step after build performs no
wait (no in-flight message is consumed) and leaves the content view
unchanged, so the downstream operators of step 0 observe the signal's
initial value rather than peer data; the copy from buffer into the content
view happens exactly on the non-first calls. -/
theorem mpiRecv_first_call_no_copy (st : RecvState) (ch : Channel)
    (content : List Val) (f : ℕ → List Val) (init : List Val)
    (h : st.first_call = true) :
    mpiRecv_step st ch content = ({ st with first_call := false }, ch, content) ∧
      (runLink f init 1).recvContent = init ∧
      ∀ (st2 : RecvState) (m : List Val) (rest : Channel),
        st2.first_call = false →
          (mpiRecv_step st2 (m :: rest) content).2.2 = m ∧
            (mpiRecv_step st2 (m :: rest) content).1.buffer = m := by
  refine ⟨by simp [mpiRecv_step, h], ?_, ?_⟩
  · rw [runLink_succ_eq]
    simp
  · intro st2 m rest h2
    simp [mpiRecv_step, h2]

/-- C7 witness: a fresh receive state with one in-flight message and
content `[9]` — the first call leaves channel and content untouched;
step 0 of a run presents the initial `[7]`. -/
theorem mpiRecv_first_call_no_copy_witness :
    recvStW.first_call = true ∧
      (mpiRecv_step recvStW chW contentW =
          ({ recvStW with first_call := false }, chW, contentW) ∧
        (runLink linkSendW linkInitW 1).recvContent = linkInitW ∧
        ∀ (st2 : RecvState) (m : List Val) (rest : Channel),
          st2.first_call = false →
            (mpiRecv_step st2 (m :: rest) contentW).2.2 = m ∧
              (mpiRecv_step st2 (m :: rest) contentW).1.buffer = m) :=
  ⟨rfl, mpiRecv_first_call_no_copy recvStW chW contentW linkSendW linkInitW rfl⟩

/-- C8: a probe with period `p ≥ 1` and empty buffer, attached at position
`i` before a run of `n` steps, samples exactly at the steps whose counter
is congruent to 0 mod `p` (the buffer grows by one at step `s` iff
`s % p = 0`) and ends the run holding exactly `⌈n/p⌉ = (n + p - 1) / p`
samples. -/
theorem probe_period_ceil_samples (c : Chunk) (i : ℕ) (n : ℕ) (prog : Bool)
    (hi : i < c.probes.length)
    (hp : 1 ≤ (c.probes.getD i defaultProbe).period)
    (hb : (c.probes.getD i defaultProbe).buffer = []) :
    ((run_n_steps c n prog).probes.getD i defaultProbe).buffer.length =
        (n + (c.probes.getD i defaultProbe).period - 1) /
          (c.probes.getD i defaultProbe).period ∧
      ∀ s : ℕ,
        ((run_n_steps c (s + 1) prog).probes.getD i defaultProbe).buffer.length =
          ((run_n_steps c s prog).probes.getD i defaultProbe).buffer.length +
            (if s % (c.probes.getD i defaultProbe).period = 0 then 1 else 0) := by
  constructor
  · have h := (run_probe_invariant c i hi prog n).2.2
    rw [h, hb, countSamples_eq_ceil _ hp]
    simp
  · intro s
    have h1 := (run_probe_invariant c i hi prog (s + 1)).2.2
    have h2 := (run_probe_invariant c i hi prog s).2.2
    rw [h1, h2, countSamples]
    exact (Nat.add_assoc _ _ _).symm

/-- C8 witness: the period-1 probe of the example chunk collects exactly
`⌈3/1⌉ = 3` samples over 3 steps, growing at every step. -/
theorem probe_period_ceil_samples_witness :
    (0 < chunkW1.probes.length ∧
        1 ≤ (chunkW1.probes.getD 0 defaultProbe).period ∧
        (chunkW1.probes.getD 0 defaultProbe).buffer = []) ∧
      (((run_n_steps chunkW1 3 false).probes.getD 0 defaultProbe).buffer.length =
          (3 + (chunkW1.probes.getD 0 defaultProbe).period - 1) /
            (chunkW1.probes.getD 0 defaultProbe).period ∧
        ∀ s : ℕ,
          ((run_n_steps chunkW1 (s + 1) false).probes.getD 0 defaultProbe).buffer.length =
            ((run_n_steps chunkW1 s false).probes.getD 0 defaultProbe).buffer.length +
              (if s % (chunkW1.probes.getD 0 defaultProbe).period = 0 then 1
                else 0)) :=
  ⟨⟨by decide, by decide, by decide⟩,
    probe_period_ceil_samples chunkW1 0 3 false (by decide) (by decide) (by decide)⟩

/-- C9: the worker's build loop consumes valid `add_signal`, `add_op` and
`add_probe` records in order into the chunk, terminates exactly when the
first stop record arrives (the records after it stay unconsumed), and a
record with any flag outside the four known ones ends the loop with the
runtime error instead of being skipped. -/
theorem worker_build_protocol (chunk : BuildChunk) (pre : List BuildRecord)
    (r : BuildRecord) (rest : List BuildRecord) (bad : BuildRecord)
    (hpre : ∀ m ∈ pre, m.flag = add_signal_flag ∨ m.flag = add_op_flag ∨
      m.flag = add_probe_flag)
    (hr : r.flag = stop_flag)
    (hbad : bad.flag ≠ add_signal_flag ∧ bad.flag ≠ add_op_flag ∧
      bad.flag ≠ add_probe_flag ∧ bad.flag ≠ stop_flag) :
    worker_build_loop chunk (pre ++ r :: rest) =
        .done (pre.foldl build_apply chunk) rest ∧
      worker_build_loop chunk (pre ++ bad :: rest) =
        .invalid (pre.foldl build_apply chunk) bad.flag := by
  obtain ⟨h1, h2, h3, h4⟩ := hbad
  constructor
  · rw [worker_build_loop_append pre hpre]
    simp [worker_build_loop, hr, stop_flag, add_signal_flag, add_op_flag,
      add_probe_flag]
  · rw [worker_build_loop_append pre hpre]
    simp [worker_build_loop, h1, h2, h3, h4]

/-- C9 witness: a stream of one signal, one op and one probe record
followed by a stop is consumed exactly through the stop, leaving the
trailing record unread; with flag 9 in place of the stop, the loop raises
the invalid-flag error. -/
theorem worker_build_protocol_witness :
    ((∀ m ∈ preW, m.flag = add_signal_flag ∨ m.flag = add_op_flag ∨
          m.flag = add_probe_flag) ∧
        recStopW.flag = stop_flag ∧
        (recBadW.flag ≠ add_signal_flag ∧ recBadW.flag ≠ add_op_flag ∧
          recBadW.flag ≠ add_probe_flag ∧ recBadW.flag ≠ stop_flag)) ∧
      (worker_build_loop chunkBW (preW ++ recStopW :: [recSigW]) =
          .done (preW.foldl build_apply chunkBW) [recSigW] ∧
        worker_build_loop chunkBW (preW ++ recBadW :: [recSigW]) =
          .invalid (preW.foldl build_apply chunkBW) recBadW.flag) :=
  ⟨⟨by decide, by decide, by decide⟩,
    worker_build_protocol chunkBW preW recStopW [recSigW] recBadW (by decide)
      (by decide) (by decide)⟩

/-- C10: every element crossing the Python boundary into the
double-precision signal store passes through the single-precision
extraction `ext` (the model of `bpy::extract<float>`): each element of a
vector or matrix registered through `add_signal`, the scalar written back
from a host callback, and every element copied back by the callback's
fallback loop. -/
theorem python_boundary_single_precision (ext : Val → Val) (a : List Val)
    (m : Tensor) (q : Val) (l out : List Val) :
    (∀ i, i < a.length →
        (ndarray_to_vector ext a).getD i 0 = ext (a.getD i 0)) ∧
      (∀ i j, i < m.length → j < (m.getD i []).length →
        ((ndarray_to_matrix ext m).getD i []).getD j 0 =
          ext ((m.getD i []).getD j 0)) ∧
      pyFunc_writeback ext (.float q) out = .ok (out.set 0 (ext q)) ∧
      (out.length ≤ l.length →
        pyFunc_writeback ext (.arr l) out =
          .ok ((l.take out.length).map ext)) := by
  refine ⟨?_, ?_, rfl, fun h => pyFunc_loop_ok ext l out h⟩
  · intro i hi
    exact getD_map_lt ext a i 0 0 hi
  · intro i j hi hj
    rw [ndarray_to_matrix, getD_map_lt (fun row => row.map ext) m i [] [] hi]
    exact getD_map_lt ext (m.getD i []) j 0 0 hj

/-- C10 witness: at the identity extraction, the vector `[1, 2]`, the
matrix `[[3, 4]]`, a scalar return 5 into `[0, 0]` and an array return
`[1, 2, 3]` into `[0, 0]` all pass elementwise through the extraction. -/
theorem python_boundary_single_precision_witness :
    ((∀ i, i < ([1, 2] : List Val).length →
          (ndarray_to_vector extW [1, 2]).getD i 0 = extW (([1, 2] : List Val).getD i 0)) ∧
        (∀ i j, i < ([[3, 4]] : Tensor).length →
            j < (([[3, 4]] : Tensor).getD i []).length →
          ((ndarray_to_matrix extW [[3, 4]]).getD i []).getD j 0 =
            extW ((([[3, 4]] : Tensor).getD i []).getD j 0)) ∧
        pyFunc_writeback extW (.float 5) [0, 0] =
          .ok (([0, 0] : List Val).set 0 (extW 5)) ∧
        (([0, 0] : List Val).length ≤ ([1, 2, 3] : List Val).length →
          pyFunc_writeback extW (.arr [1, 2, 3]) [0, 0] =
            .ok ((([1, 2, 3] : List Val).take ([0, 0] : List Val).length).map extW))) :=
  python_boundary_single_precision extW [1, 2] [[3, 4]] 5 [1, 2, 3] [0, 0]

end NengoMpi
